import Mathlib

/-!
# Verification of the cyclic coordinate-descent Lasso solver

Shallow embedding of `src/src/lasso_cda.cpp` (functions `soft_threshold`
and `lasso_cda_cpp`) over exact rational arithmetic.  Vectors are
`Fin`-indexed functions into `ℚ`; the mutable locals of the C++ function
(`beta`, `r`) become an explicit state record threaded through the
coordinate updates; the two nested loops become a fold over the ascending
coordinate list and a structural recursion on the remaining sweep count.
-/

namespace LassoCDA

/-- `soft_threshold(z, lambda)` from the source: `z - lambda` when
`z > lambda`, `z + lambda` when `z < -lambda`, and `0` otherwise. -/
def soft_threshold (z lambda : ℚ) : ℚ :=
  if z > lambda then z - lambda
  else if z < -lambda then z + lambda
  else 0

/-- The mutable locals of `lasso_cda_cpp`: the coefficient vector `beta`
(length `p`) and the residual vector `r` (length `n`). -/
structure CDState (n p : ℕ) where
  beta : Fin p → ℚ
  r : Fin n → ℚ

/-- Dot product `sum(u * v)` of two length-`n` vectors. -/
def dot {n : ℕ} (u v : Fin n → ℚ) : ℚ := ∑ i, u i * v i

/-- Column extraction `X_j[i] = X(i, j)` (lines 46–48 of the source). -/
def col {n p : ℕ} (X : Fin n → Fin p → ℚ) (j : Fin p) : Fin n → ℚ :=
  fun i => X i j

/-- One update of coordinate `j` (lines 46–69 of the source): compute
`‖X_j‖² = sum(X_j * X_j)`, `rho = sum(X_j * r) + ‖X_j‖² * beta[j]`, set
`beta[j] ← soft_threshold(rho / ‖X_j‖², lambda / ‖X_j‖²)`, and update the
residual `r ← r + X_j * (beta_old − beta[j])`. -/
def coordStep {n p : ℕ} (X : Fin n → Fin p → ℚ) (lambda : ℚ)
    (st : CDState n p) (j : Fin p) : CDState n p :=
  let X_j := col X j
  let X_j_norm2 := dot X_j X_j
  let rho := dot X_j st.r + X_j_norm2 * st.beta j
  let beta_new := soft_threshold (rho / X_j_norm2) (lambda / X_j_norm2)
  { beta := Function.update st.beta j beta_new
    r := fun i => st.r i + X_j i * (st.beta j - beta_new) }

/-- Body of the inner `for (j …)` loop, also accumulating `max_change`:
after the coordinate update, `max_change ← max(max_change,
|beta[j] − beta_old|)` (lines 68–69 of the source). -/
def sweepStep {n p : ℕ} (X : Fin n → Fin p → ℚ) (lambda : ℚ)
    (acc : CDState n p × ℚ) (j : Fin p) : CDState n p × ℚ :=
  let st := coordStep X lambda acc.1 j
  (st, max acc.2 |st.beta j - acc.1.beta j|)

/-- One full sweep: `max_change = 0.0`, then coordinates `j = 0, …, p-1`
in ascending order (lines 38–70 of the source).  Returns the updated
state together with the sweep's `max_change`. -/
def sweep {n p : ℕ} (X : Fin n → Fin p → ℚ) (lambda : ℚ)
    (st : CDState n p) : CDState n p × ℚ :=
  (List.finRange p).foldl (sweepStep X lambda) (st, 0)

/-- The outer `for (iter …)` loop (lines 37–76 of the source), by the
number of iterations that remain: each pass performs one sweep and breaks
when `max_change < tol`. -/
def lassoLoop {n p : ℕ} (X : Fin n → Fin p → ℚ) (lambda tol : ℚ) :
    ℕ → CDState n p → CDState n p
  | 0, st => st
  | k + 1, st =>
    let s := sweep X lambda st
    if s.2 < tol then s.1 else lassoLoop X lambda tol k s.1

/-- Entry state (lines 27–29 of the source): `beta` all zero and the
residual `r` a copy of `y`. -/
def initState {n p : ℕ} (y : Fin n → ℚ) : CDState n p :=
  { beta := fun _ => 0, r := y }

/-- `lasso_cda_cpp(X, y, lambda, max_iter, tol)`: run at most `max_iter`
sweeps from the zero coefficient vector and return the final `beta`.
`max_iter` is a C++ `int`, so a non-positive value means the outer loop
body never runs (`max_iter.toNat = 0` sweeps). -/
def lasso_cda_cpp {n p : ℕ} (X : Fin n → Fin p → ℚ) (y : Fin n → ℚ)
    (lambda : ℚ) (max_iter : ℤ) (tol : ℚ) : Fin p → ℚ :=
  (lassoLoop X lambda tol max_iter.toNat (initState y)).beta

/-- `m` unconditional sweeps, ignoring the convergence test: used to
describe the loop's behaviour (which prefix of sweeps actually ran). -/
def applySweeps {n p : ℕ} (X : Fin n → Fin p → ℚ) (lambda : ℚ) :
    ℕ → CDState n p → CDState n p
  | 0, st => st
  | k + 1, st => applySweeps X lambda k (sweep X lambda st).1

/-- The residual invariant of the algorithm: `r = y − X β`, componentwise. -/
def residInv {n p : ℕ} (X : Fin n → Fin p → ℚ) (y : Fin n → ℚ)
    (st : CDState n p) : Prop :=
  ∀ i, st.r i = y i - ∑ j, X i j * st.beta j

/-- The full memory of a call to `lasso_cda_cpp`: the caller's design
matrix `X` and response vector `y` together with the function's locals
`beta` and `r`.  Used to express which parts of memory the call writes. -/
structure Mem (n p : ℕ) where
  X : Fin n → Fin p → ℚ
  y : Fin n → ℚ
  beta : Fin p → ℚ
  r : Fin n → ℚ

/-- The coordinate update acting on the full memory: it reads `X` and
writes only the `beta` and `r` components (lines 46–69 of the source
assign only to `X_j`, `beta[j]` and `r`). -/
def coordStepM {n p : ℕ} (lambda : ℚ) (m : Mem n p) (j : Fin p) : Mem n p :=
  { X := m.X, y := m.y,
    beta := (coordStep m.X lambda ⟨m.beta, m.r⟩ j).beta,
    r := (coordStep m.X lambda ⟨m.beta, m.r⟩ j).r }

/-- Inner loop body on the full memory, with the `max_change` accumulator. -/
def sweepStepM {n p : ℕ} (lambda : ℚ) (acc : Mem n p × ℚ) (j : Fin p) :
    Mem n p × ℚ :=
  let m := coordStepM lambda acc.1 j
  (m, max acc.2 |m.beta j - acc.1.beta j|)

/-- One full sweep on the full memory. -/
def sweepM {n p : ℕ} (lambda : ℚ) (m : Mem n p) : Mem n p × ℚ :=
  (List.finRange p).foldl (sweepStepM lambda) (m, 0)

/-- The outer loop on the full memory. -/
def lassoLoopM {n p : ℕ} (lambda tol : ℚ) : ℕ → Mem n p → Mem n p
  | 0, m => m
  | k + 1, m =>
    let s := sweepM lambda m
    if s.2 < tol then s.1 else lassoLoopM lambda tol k s.1

/-- A whole call of `lasso_cda_cpp` acting on the full memory: on entry
`beta` is freshly zeroed and `r` is initialized to a copy of `y`
(`r = clone(y)`, line 29 of the source), then the loop runs. -/
def lassoRunM {n p : ℕ} (lambda : ℚ) (max_iter : ℤ) (tol : ℚ)
    (m : Mem n p) : Mem n p :=
  lassoLoopM lambda tol max_iter.toNat
    { X := m.X, y := m.y, beta := fun _ => 0, r := m.y }

end LassoCDA

namespace LassoCDA

/-! ## General lemmas about the embedded program -/

/-- Unfolding equation of the outer loop: one sweep, then the break test. -/
lemma lassoLoop_succ {n p : ℕ} (X : Fin n → Fin p → ℚ) (lambda tol : ℚ)
    (k : ℕ) (st : CDState n p) :
    lassoLoop X lambda tol (k + 1) st =
      if (sweep X lambda st).2 < tol then (sweep X lambda st).1
      else lassoLoop X lambda tol k (sweep X lambda st).1 := rfl

/-- When the sweep's `max_change` is below `tol`, the loop breaks with
that sweep's state. -/
lemma lassoLoop_succ_of_lt {n p : ℕ} (X : Fin n → Fin p → ℚ)
    (lambda tol : ℚ) (k : ℕ) (st : CDState n p)
    (h : (sweep X lambda st).2 < tol) :
    lassoLoop X lambda tol (k + 1) st = (sweep X lambda st).1 := by
  rw [lassoLoop_succ, if_pos h]

/-- When the sweep's `max_change` is not below `tol`, the loop goes on. -/
lemma lassoLoop_succ_of_not_lt {n p : ℕ} (X : Fin n → Fin p → ℚ)
    (lambda tol : ℚ) (k : ℕ) (st : CDState n p)
    (h : ¬ (sweep X lambda st).2 < tol) :
    lassoLoop X lambda tol (k + 1) st
      = lassoLoop X lambda tol k (sweep X lambda st).1 := by
  rw [lassoLoop_succ, if_neg h]

/-- The state component of the inner loop is the fold of the plain
coordinate update; the `max_change` accumulator does not influence it. -/
lemma foldl_sweepStep_fst {n p : ℕ} (X : Fin n → Fin p → ℚ) (lambda : ℚ) :
    ∀ (l : List (Fin p)) (acc : CDState n p × ℚ),
      (l.foldl (sweepStep X lambda) acc).1 = l.foldl (coordStep X lambda) acc.1
  | [], _ => rfl
  | j :: l, acc => by
    rw [List.foldl_cons, List.foldl_cons,
      foldl_sweepStep_fst X lambda l (sweepStep X lambda acc j)]
    rfl

/-- The `max_change` accumulator never decreases along the inner loop. -/
lemma foldl_sweepStep_snd_mono {n p : ℕ} (X : Fin n → Fin p → ℚ) (lambda : ℚ) :
    ∀ (l : List (Fin p)) (acc : CDState n p × ℚ),
      acc.2 ≤ (l.foldl (sweepStep X lambda) acc).2
  | [], _ => le_refl _
  | j :: l, acc =>
    le_trans (le_max_left _ _) (foldl_sweepStep_snd_mono X lambda l
      (sweepStep X lambda acc j))

/-- A sweep's `max_change` is non-negative (it starts at `0.0` and only
`max`-accumulates absolute values). -/
lemma sweep_snd_nonneg {n p : ℕ} (X : Fin n → Fin p → ℚ) (lambda : ℚ)
    (st : CDState n p) : 0 ≤ (sweep X lambda st).2 :=
  foldl_sweepStep_snd_mono X lambda (List.finRange p) (st, 0)

/-- The loop performs some number `m ≤ k` of sweeps and returns the state
they produce. -/
lemma lassoLoop_exists_sweeps {n p : ℕ} (X : Fin n → Fin p → ℚ)
    (lambda tol : ℚ) :
    ∀ (k : ℕ) (st : CDState n p),
      ∃ m, m ≤ k ∧ lassoLoop X lambda tol k st = applySweeps X lambda m st
  | 0, _ => ⟨0, le_refl 0, rfl⟩
  | k + 1, st => by
    by_cases h : (sweep X lambda st).2 < tol
    · exact ⟨1, Nat.succ_le_succ (Nat.zero_le k),
        by rw [lassoLoop_succ, if_pos h]; rfl⟩
    · obtain ⟨m, hm, he⟩ :=
        lassoLoop_exists_sweeps X lambda tol k (sweep X lambda st).1
      exact ⟨m + 1, Nat.succ_le_succ hm,
        by rw [lassoLoop_succ, if_neg h, he]; rfl⟩

/-- With a non-positive tolerance the break test `max_change < tol` never
fires, so the loop performs all `k` sweeps. -/
lemma lassoLoop_no_break {n p : ℕ} (X : Fin n → Fin p → ℚ)
    (lambda tol : ℚ) (ht : tol ≤ 0) :
    ∀ (k : ℕ) (st : CDState n p),
      lassoLoop X lambda tol k st = applySweeps X lambda k st
  | 0, _ => rfl
  | k + 1, st => by
    have h : ¬ (sweep X lambda st).2 < tol :=
      not_lt.mpr (le_trans ht (sweep_snd_nonneg X lambda st))
    rw [lassoLoop_succ, if_neg h,
      lassoLoop_no_break X lambda tol ht k (sweep X lambda st).1]
    rfl

/-- Multiplying against a vector updated at one index: the sum changes by
the `j`-th term only. -/
lemma sum_mul_update {n p : ℕ} (X : Fin n → Fin p → ℚ) (i : Fin n)
    (beta : Fin p → ℚ) (j : Fin p) (b : ℚ) :
    ∑ k, X i k * Function.update beta j b k
      = (∑ k, X i k * beta k) + X i j * (b - beta j) := by
  have h : ∀ k, X i k * Function.update beta j b k
      = X i k * beta k + (if k = j then X i j * (b - beta j) else 0) := by
    intro k
    rcases eq_or_ne k j with rfl | hk
    · simp [Function.update_same]; ring
    · rw [Function.update_noteq hk, if_neg hk, add_zero]
  rw [Finset.sum_congr rfl fun k _ => h k, Finset.sum_add_distrib,
    Finset.sum_ite_eq' Finset.univ j fun _ => X i j * (b - beta j)]
  simp

/-- At an all-zero column `‖X_j‖² = 0`, so the update divides by zero.
In the exact model (`x / 0 = 0`) the new coefficient is
`soft_threshold 0 0 = 0` and the residual gains `0 · (…)`, so the step
only writes `0` into `beta[j]` and leaves `r` as it was. -/
lemma coordStep_zero_col {n p : ℕ} (X : Fin n → Fin p → ℚ) (lambda : ℚ)
    (j : Fin p) (hz : ∀ i, X i j = 0) (st : CDState n p) :
    coordStep X lambda st j
      = { beta := Function.update st.beta j 0, r := st.r } := by
  have h1 : dot (col X j) (col X j) = 0 := by simp [dot, col, hz]
  have h2 : dot (col X j) st.r = 0 := by simp [dot, col, hz]
  simp only [coordStep, h1, h2]
  have h3 : soft_threshold ((0 + 0 * st.beta j) / 0) (lambda / 0) = 0 := by
    simp [soft_threshold]
  rw [h3]
  have h4 : (fun i => st.r i + col X j i * (st.beta j - 0)) = st.r := by
    funext i
    simp [col, hz i]
  rw [h4]

/-- A coefficient sitting at `0` over an all-zero column stays `0` under
any single coordinate update. -/
lemma beta_zero_col_step {n p : ℕ} (X : Fin n → Fin p → ℚ) (lambda : ℚ)
    (j : Fin p) (hz : ∀ i, X i j = 0) (st : CDState n p) (k : Fin p)
    (h : st.beta j = 0) : (coordStep X lambda st k).beta j = 0 := by
  rcases eq_or_ne k j with rfl | hk
  · rw [coordStep_zero_col X lambda k hz st]
    simp [Function.update_same]
  · show (Function.update st.beta k _) j = 0
    rw [Function.update_noteq (Ne.symm hk)]
    exact h

/-- … and stays `0` along the inner loop. -/
lemma beta_zero_col_foldl {n p : ℕ} (X : Fin n → Fin p → ℚ) (lambda : ℚ)
    (j : Fin p) (hz : ∀ i, X i j = 0) :
    ∀ (l : List (Fin p)) (acc : CDState n p × ℚ), acc.1.beta j = 0 →
      ((l.foldl (sweepStep X lambda) acc).1).beta j = 0
  | [], _, h => h
  | k :: l, acc, h =>
    beta_zero_col_foldl X lambda j hz l (sweepStep X lambda acc k)
      (beta_zero_col_step X lambda j hz acc.1 k h)

/-- … and stays `0` across whole sweeps and the outer loop. -/
lemma beta_zero_col_loop {n p : ℕ} (X : Fin n → Fin p → ℚ)
    (lambda tol : ℚ) (j : Fin p) (hz : ∀ i, X i j = 0) :
    ∀ (k : ℕ) (st : CDState n p), st.beta j = 0 →
      (lassoLoop X lambda tol k st).beta j = 0
  | 0, _, h => h
  | k + 1, st, h => by
    have hs : ((sweep X lambda st).1).beta j = 0 :=
      beta_zero_col_foldl X lambda j hz (List.finRange p) (st, 0) h
    rw [lassoLoop_succ]
    by_cases hc : (sweep X lambda st).2 < tol
    · rw [if_pos hc]; exact hs
    · rw [if_neg hc]
      exact beta_zero_col_loop X lambda tol j hz k (sweep X lambda st).1 hs

/-! ## The run on the full memory agrees with the run on the locals -/

/-- The inner loop on the full memory only writes `beta` and `r`, and
writes them exactly as the inner loop on the locals does. -/
lemma foldlM_spec {n p : ℕ} (A : Fin n → Fin p → ℚ) (Y : Fin n → ℚ)
    (lambda : ℚ) :
    ∀ (l : List (Fin p)) (st : CDState n p) (c : ℚ),
      l.foldl (sweepStepM lambda) (⟨A, Y, st.beta, st.r⟩, c)
        = (⟨A, Y, ((l.foldl (sweepStep A lambda) (st, c)).1).beta,
            ((l.foldl (sweepStep A lambda) (st, c)).1).r⟩,
           (l.foldl (sweepStep A lambda) (st, c)).2)
  | [], _, _ => rfl
  | j :: l, st, c => by
    rw [List.foldl_cons, List.foldl_cons]
    have hstep : sweepStepM lambda (⟨A, Y, st.beta, st.r⟩, c) j
        = (⟨A, Y, ((sweepStep A lambda (st, c) j).1).beta,
            ((sweepStep A lambda (st, c) j).1).r⟩,
           (sweepStep A lambda (st, c) j).2) := rfl
    rw [hstep]
    exact foldlM_spec A Y lambda l (sweepStep A lambda (st, c) j).1
      (sweepStep A lambda (st, c) j).2

/-- The outer loop on the full memory leaves `X` and `y` alone and
computes the same `beta` and `r` as the loop on the locals. -/
lemma lassoLoopM_spec {n p : ℕ} (A : Fin n → Fin p → ℚ) (Y : Fin n → ℚ)
    (lambda tol : ℚ) :
    ∀ (k : ℕ) (st : CDState n p),
      lassoLoopM lambda tol k (⟨A, Y, st.beta, st.r⟩ : Mem n p)
        = ⟨A, Y, (lassoLoop A lambda tol k st).beta,
            (lassoLoop A lambda tol k st).r⟩
  | 0, _ => rfl
  | k + 1, st => by
    show (if (sweepM lambda (⟨A, Y, st.beta, st.r⟩ : Mem n p)).2 < tol
        then (sweepM lambda (⟨A, Y, st.beta, st.r⟩ : Mem n p)).1
        else lassoLoopM lambda tol k
          (sweepM lambda (⟨A, Y, st.beta, st.r⟩ : Mem n p)).1) = _
    have hsw : sweepM lambda (⟨A, Y, st.beta, st.r⟩ : Mem n p)
        = (⟨A, Y, ((sweep A lambda st).1).beta, ((sweep A lambda st).1).r⟩,
           (sweep A lambda st).2) :=
      foldlM_spec A Y lambda (List.finRange p) st 0
    rw [hsw, lassoLoop_succ]
    by_cases hc : (sweep A lambda st).2 < tol
    · rw [if_pos hc, if_pos hc]
    · rw [if_neg hc, if_neg hc]
      exact lassoLoopM_spec A Y lambda tol k (sweep A lambda st).1

/-! ## Concrete sweep evaluations used by witnesses -/

lemma finRange_one : List.finRange 1 = [0] := rfl

lemma finRange_two : List.finRange 2 = [0, 1] := rfl

/-- First sweep on the orthonormal design `X = [[1,0],[0,1]]`,
`y = [3,-2]`, `lambda = 1`: it reaches `beta = [2,-1]`, residual
`[1,-1]`, with maximum change `2`. -/
lemma sweep_orth_1 :
    sweep ![![(1:ℚ),0],![0,1]] 1 (initState ![3,-2])
      = ({ beta := ![2,-1], r := ![1,-1] }, 2) := by
  rw [sweep, finRange_two]
  simp only [List.foldl, sweepStep, coordStep, dot, col, initState,
    soft_threshold, Fin.sum_univ_two]
  norm_num [Function.update_apply]
  refine ⟨funext fun i => ?_, funext fun i => ?_⟩ <;> fin_cases i <;>
    norm_num [Function.update_apply]

set_option maxRecDepth 10000 in
/-- Second sweep on the orthonormal design: a fixed point, maximum
change `0`. -/
lemma sweep_orth_2 :
    sweep ![![(1:ℚ),0],![0,1]] 1 { beta := ![2,-1], r := ![1,-1] }
      = ({ beta := ![2,-1], r := ![1,-1] }, 0) := by
  rw [sweep, finRange_two]
  simp only [List.foldl, sweepStep, coordStep, dot, col, soft_threshold,
    Fin.sum_univ_two, Matrix.cons_val_zero, Matrix.cons_val_one,
    Matrix.head_cons]
  norm_num [Function.update_apply]
  funext i
  fin_cases i <;> norm_num [Function.update_apply]

set_option maxRecDepth 10000 in
/-- First sweep on `X = [[1]]`, `y = [3]` with the invalid penalty
`lambda = -1`: the update runs and anti-shrinks `beta` to `[4]`. -/
lemma sweep_neg_1 :
    sweep ![![(1:ℚ)]] (-1) (initState ![3])
      = ({ beta := ![4], r := ![-1] }, 4) := by
  rw [sweep, finRange_one]
  simp only [List.foldl, sweepStep, coordStep, dot, col, initState,
    soft_threshold, Fin.sum_univ_one, Matrix.cons_val_zero,
    Matrix.cons_val_one, Matrix.head_cons]
  norm_num [Function.update_apply]
  refine ⟨funext fun i => ?_, funext fun i => ?_⟩ <;> fin_cases i <;>
    norm_num [Function.update_apply]

set_option maxRecDepth 10000 in
/-- Second sweep on `X = [[1]]`, `y = [3]`, `lambda = -1`: a fixed
point, maximum change `0`. -/
lemma sweep_neg_2 :
    sweep ![![(1:ℚ)]] (-1) { beta := ![4], r := ![-1] }
      = ({ beta := ![4], r := ![-1] }, 0) := by
  rw [sweep, finRange_one]
  simp only [List.foldl, sweepStep, coordStep, dot, col, soft_threshold,
    Fin.sum_univ_one, Matrix.cons_val_zero, Matrix.cons_val_one,
    Matrix.head_cons]
  norm_num [Function.update_apply]
  funext i
  fin_cases i
  norm_num [Function.update_apply]

set_option maxRecDepth 10000 in
lemma sweep_orth_1_fst :
    (sweep ![![(1:ℚ),0],![0,1]] 1 (initState ![3,-2])).1
      = { beta := ![2,-1], r := ![1,-1] } := by
  rw [sweep_orth_1]

lemma sweep_orth_1_snd :
    (sweep ![![(1:ℚ),0],![0,1]] 1 (initState ![3,-2])).2 = 2 := by
  rw [sweep_orth_1]

lemma sweep_orth_2_fst :
    (sweep ![![(1:ℚ),0],![0,1]] 1 { beta := ![2,-1], r := ![1,-1] }).1
      = { beta := ![2,-1], r := ![1,-1] } := by
  rw [sweep_orth_2]

lemma sweep_orth_2_snd :
    (sweep ![![(1:ℚ),0],![0,1]] 1 { beta := ![2,-1], r := ![1,-1] }).2
      = 0 := by
  rw [sweep_orth_2]

lemma sweep_neg_1_fst :
    (sweep ![![(1:ℚ)]] (-1) (initState ![3])).1
      = { beta := ![4], r := ![-1] } := by
  rw [sweep_neg_1]

lemma sweep_neg_1_snd :
    (sweep ![![(1:ℚ)]] (-1) (initState ![3])).2 = 4 := by
  rw [sweep_neg_1]

lemma sweep_neg_2_fst :
    (sweep ![![(1:ℚ)]] (-1) { beta := ![4], r := ![-1] }).1
      = { beta := ![4], r := ![-1] } := by
  rw [sweep_neg_2]

lemma sweep_neg_2_snd :
    (sweep ![![(1:ℚ)]] (-1) { beta := ![4], r := ![-1] }).2 = 0 := by
  rw [sweep_neg_2]

/-- On `X = [[1]]`, `y = [0]`, `lambda = 0` the very first sweep already
changes nothing. -/
lemma sweep_zero_snd :
    (sweep ![![(1:ℚ)]] 0 (initState ![0])).2 = 0 := by
  rw [sweep, finRange_one]
  simp only [List.foldl, sweepStep, coordStep, dot, col, initState,
    soft_threshold, Fin.sum_univ_one, Matrix.cons_val_zero,
    Matrix.cons_val_one, Matrix.head_cons]
  norm_num

/-- C2: for every `lambda ≥ 0`, `soft_threshold z lambda` is `z - lambda`
when `z > lambda`, `z + lambda` when `z < -lambda`, and `0` when
`|z| ≤ lambda`; and `soft_threshold z 0 = z` for every `z`. -/
theorem soft_threshold_spec :
    (∀ z lambda : ℚ, 0 ≤ lambda →
      (lambda < z → soft_threshold z lambda = z - lambda) ∧
      (z < -lambda → soft_threshold z lambda = z + lambda) ∧
      (|z| ≤ lambda → soft_threshold z lambda = 0)) ∧
    (∀ z : ℚ, soft_threshold z 0 = z) := by
  constructor
  · intro z lambda hl
    refine ⟨fun h => ?_, fun h => ?_, fun h => ?_⟩
    · simp only [soft_threshold, if_pos h]
    · have h1 : ¬ lambda < z := by linarith
      simp only [soft_threshold, if_neg h1, if_pos h]
    · rcases abs_le.mp h with ⟨h1, h2⟩
      have h3 : ¬ lambda < z := by linarith
      have h4 : ¬ z < -lambda := by linarith
      simp only [soft_threshold, if_neg h3, if_neg h4]
  · intro z
    by_cases h : 0 < z
    · simp only [soft_threshold, if_pos h, sub_zero]
    · by_cases h2 : z < 0
      · have h3 : ¬ (0:ℚ) < z := h
        simp only [soft_threshold, neg_zero, if_neg h3, if_pos h2, add_zero]
      · have hz : z = 0 := le_antisymm (not_lt.mp h) (not_lt.mp h2)
        simp [soft_threshold, hz]

/-- Witness for C2 at concrete inputs `(5, 2)`, `(-5, 2)`, `(1, 2)`. -/
theorem soft_threshold_spec_witness :
    soft_threshold 5 2 = 3 ∧ soft_threshold (-5) 2 = -3 ∧
      soft_threshold 1 2 = 0 := by
  refine ⟨?_, ?_, ?_⟩
  · have h := (soft_threshold_spec.1 5 2 (by norm_num)).1 (by norm_num)
    rw [h]; norm_num
  · have h := (soft_threshold_spec.1 (-5) 2 (by norm_num)).2.1 (by norm_num)
    rw [h]; norm_num
  · exact (soft_threshold_spec.1 1 2 (by norm_num)).2.2 (by norm_num)

/-- C1: every coordinate update replaces `beta[j]` by
`soft_threshold (rho_j / ‖X_j‖²) (lambda / ‖X_j‖²)` where
`rho_j = X_j · r + ‖X_j‖² · beta[j]` is computed from the current
residual and coefficient; and a sweep applies exactly this update to the
coordinates `0, …, p-1` in ascending fixed order (`List.finRange p`). -/
theorem coord_update_closed_form {n p : ℕ} (X : Fin n → Fin p → ℚ)
    (lambda : ℚ) (st : CDState n p) (j : Fin p) :
    (coordStep X lambda st j).beta j
      = soft_threshold
          ((dot (col X j) st.r + dot (col X j) (col X j) * st.beta j)
            / dot (col X j) (col X j))
          (lambda / dot (col X j) (col X j)) ∧
    (sweep X lambda st).1
      = (List.finRange p).foldl (coordStep X lambda) st := by
  constructor
  · show Function.update st.beta j _ j = _
    rw [Function.update_same]
  · exact foldl_sweepStep_fst X lambda (List.finRange p) (st, 0)

/-- C3: the residual invariant `r = y − Xβ` holds exactly (over ℚ) for
the entry state (`beta = 0`, `r` a copy of `y`) and is preserved by every
coordinate update `r ← r + X_j (beta_old − beta_new)`. -/
theorem residual_invariant {n p : ℕ} (X : Fin n → Fin p → ℚ)
    (y : Fin n → ℚ) (lambda : ℚ) :
    residInv X y (initState y) ∧
    ∀ (st : CDState n p) (j : Fin p), residInv X y st →
      residInv X y (coordStep X lambda st j) := by
  constructor
  · intro i
    simp [initState, residInv]
  · intro st j h i
    simp only [residInv, coordStep]
    rw [sum_mul_update, h i]
    simp only [col]
    ring

/-- Witness for C3: the invariant holds after one concrete coordinate
update from the entry state on `X = [[1,0],[0,1]]`, `y = [3,-2]`. -/
theorem residual_invariant_witness :
    residInv ![![(1:ℚ),0],![0,1]] ![3,-2]
      (coordStep ![![(1:ℚ),0],![0,1]] 1 (initState ![3,-2]) 0) :=
  (residual_invariant ![![(1:ℚ),0],![0,1]] ![3,-2] 1).2 (initState ![3,-2]) 0
    ((residual_invariant ![![(1:ℚ),0],![0,1]] ![3,-2] 1).1)

/-- C4: the call always terminates with a length-`p` vector that is
`beta` after some `m ≤ max_iter` full sweeps (on exhaustion the current
`beta` is returned, never an error); and as soon as a sweep's maximum
per-coordinate change is below `tol` the loop stops with that sweep's
state. -/
theorem sweeps_bounded_and_early_stop {n p : ℕ} (X : Fin n → Fin p → ℚ)
    (y : Fin n → ℚ) (lambda : ℚ) (max_iter : ℤ) (tol : ℚ) :
    (∃ m, m ≤ max_iter.toNat ∧
      lasso_cda_cpp X y lambda max_iter tol
        = (applySweeps X lambda m (initState y)).beta) ∧
    (∀ (k : ℕ) (st : CDState n p), (sweep X lambda st).2 < tol →
      lassoLoop X lambda tol (k + 1) st = (sweep X lambda st).1) ∧
    (∀ st : CDState n p, lassoLoop X lambda tol 0 st = st) := by
  refine ⟨?_, ?_, fun _ => rfl⟩
  · obtain ⟨m, hm, he⟩ :=
      lassoLoop_exists_sweeps X lambda tol max_iter.toNat (initState y)
    exact ⟨m, hm, congrArg CDState.beta he⟩
  · intro k st h
    rw [lassoLoop_succ, if_pos h]

/-- Witness for C4: on `X = [[1]]`, `y = [0]`, `lambda = 0`, `tol = 1`
the first sweep converges, and with `3 + 1` iterations remaining the loop
stops right there. -/
theorem sweeps_bounded_and_early_stop_witness :
    lassoLoop ![![(1:ℚ)]] 0 1 (3 + 1) (initState ![0])
      = (sweep ![![(1:ℚ)]] 0 (initState ![0])).1 :=
  (sweeps_bounded_and_early_stop ![![(1:ℚ)]] ![0] 0 5 1).2.1 3
    (initState ![0]) (by rw [sweep_zero_snd]; decide)

/-- C5 counterexample: a call with the invalid penalty `lambda = -1`
(and otherwise default hyperparameters) is not rejected: it runs the
algorithm and returns the computed vector `[4]` — the negative penalty
even anti-shrinks the coefficient past the least-squares value `3`. -/
theorem no_validation_counterexample :
    lasso_cda_cpp ![![(1:ℚ)]] ![3] (-1) 1000 (1/1000000) = ![4] := by
  have h1000 : (1000 : ℤ).toNat = 999 + 1 := rfl
  have h999 : (999 : ℕ) = 998 + 1 := rfl
  have hn : ¬ (sweep ![![(1:ℚ)]] (-1) (initState ![3])).2 < 1/1000000 := by
    rw [sweep_neg_1_snd]; norm_num
  have hb : (sweep ![![(1:ℚ)]] (-1)
      ({ beta := ![4], r := ![-1] } : CDState 1 1)).2 < 1/1000000 := by
    rw [sweep_neg_2_snd]; norm_num
  rw [lasso_cda_cpp, h1000, lassoLoop_succ_of_not_lt _ _ _ _ _ hn,
    sweep_neg_1_fst, h999, lassoLoop_succ_of_lt _ _ _ _ _ hb,
    sweep_neg_2_fst]

/-- C5 (amended): `lasso_cda_cpp` performs no input validation at all:
every call, with invalid hyperparameters included, runs the main loop on
the inputs as given.  In particular a negative `tol` is used as-is: the
break test `max_change < tol` then never fires and all `max_iter` sweeps
run. -/
theorem no_validation_negative_tol {n p : ℕ} (X : Fin n → Fin p → ℚ)
    (y : Fin n → ℚ) (lambda : ℚ) (max_iter : ℤ) (tol : ℚ) (ht : tol < 0) :
    lasso_cda_cpp X y lambda max_iter tol
      = (applySweeps X lambda max_iter.toNat (initState y)).beta := by
  rw [lasso_cda_cpp, lassoLoop_no_break X lambda tol (le_of_lt ht)]

/-- Witness for C5 (amended) at `tol = -1`, `max_iter = 2`. -/
theorem no_validation_negative_tol_witness :
    lasso_cda_cpp ![![(1:ℚ)]] ![3] 0 2 (-1)
      = (applySweeps ![![(1:ℚ)]] 0 2 (initState ![3])).beta :=
  no_validation_negative_tol ![![(1:ℚ)]] ![3] 0 2 (-1) (by decide)

/-- C6: over an all-zero column `j` the coordinate update degenerates to
a skip — it leaves the residual and every other coefficient unchanged and
writes `0` (the value `beta[j]` always holds there) into `beta[j]` — and
the returned coefficient at `j` is `0`; no undefined value reaches the
output. -/
theorem zero_column_skip {n p : ℕ} (X : Fin n → Fin p → ℚ)
    (y : Fin n → ℚ) (lambda : ℚ) (max_iter : ℤ) (tol : ℚ) (j : Fin p)
    (hz : ∀ i, X i j = 0) :
    (∀ st : CDState n p,
        (coordStep X lambda st j).beta j = 0 ∧
        (coordStep X lambda st j).r = st.r ∧
        ∀ k, k ≠ j → (coordStep X lambda st j).beta k = st.beta k) ∧
    lasso_cda_cpp X y lambda max_iter tol j = 0 := by
  constructor
  · intro st
    rw [coordStep_zero_col X lambda j hz st]
    refine ⟨?_, rfl, fun k hk => ?_⟩
    · show Function.update st.beta j 0 j = 0
      rw [Function.update_same]
    · show Function.update st.beta j 0 k = st.beta k
      rw [Function.update_noteq hk]
  · exact beta_zero_col_loop X lambda tol j hz max_iter.toNat
      (initState y) rfl

/-- Witness for C6: on `X = [[0,1],[0,1]]` (first column all zero),
`y = [1,2]`, `lambda = 1`, the returned coefficient at column `0` is `0`. -/
theorem zero_column_skip_witness :
    lasso_cda_cpp ![![(0:ℚ),1],![0,1]] ![1,2] 1 3 1 0 = 0 :=
  (zero_column_skip ![![(0:ℚ),1],![0,1]] ![1,2] 1 3 1 0
    (by intro i; fin_cases i <;> rfl)).2

/-- C7: on the orthonormal design `X = [[1,0],[0,1]]`, `y = [3,-2]`,
`lambda = 1`, with the default `max_iter = 1000` and `tol = 1e-6`, the
call returns exactly `beta = [2,-1] = [soft_threshold(3,1),
soft_threshold(-2,1)]`, and that value is already reached after the first
sweep. -/
theorem orthonormal_shrinkage_run :
    lasso_cda_cpp ![![(1:ℚ),0],![0,1]] ![3,-2] 1 1000 (1/1000000)
      = ![2,-1] ∧
    (applySweeps ![![(1:ℚ),0],![0,1]] 1 1 (initState ![3,-2])).beta
      = ![2,-1] := by
  constructor
  · have h1000 : (1000 : ℤ).toNat = 999 + 1 := rfl
    have h999 : (999 : ℕ) = 998 + 1 := rfl
    have hn : ¬ (sweep ![![(1:ℚ),0],![0,1]] 1 (initState ![3,-2])).2
        < 1/1000000 := by
      rw [sweep_orth_1_snd]; norm_num
    have hb : (sweep ![![(1:ℚ),0],![0,1]] 1
        ({ beta := ![2,-1], r := ![1,-1] } : CDState 2 2)).2
        < 1/1000000 := by
      rw [sweep_orth_2_snd]; norm_num
    rw [lasso_cda_cpp, h1000, lassoLoop_succ_of_not_lt _ _ _ _ _ hn,
      sweep_orth_1_fst, h999, lassoLoop_succ_of_lt _ _ _ _ _ hb,
      sweep_orth_2_fst]
  · show ((sweep ![![(1:ℚ),0],![0,1]] 1 (initState ![3,-2])).1).beta
        = ![2,-1]
    rw [sweep_orth_1_fst]

/-- C8: the solver is deterministic — two calls with equal design
matrices, responses, penalties, iteration caps and tolerances return
equal coefficient vectors. -/
theorem deterministic_runs {n p : ℕ} (X X2 : Fin n → Fin p → ℚ)
    (y y2 : Fin n → ℚ) (lambda lambda2 : ℚ) (max_iter max_iter2 : ℤ)
    (tol tol2 : ℚ) (hX : X = X2) (hy : y = y2) (hl : lambda = lambda2)
    (hm : max_iter = max_iter2) (ht : tol = tol2) :
    lasso_cda_cpp X y lambda max_iter tol
      = lasso_cda_cpp X2 y2 lambda2 max_iter2 tol2 := by
  rw [hX, hy, hl, hm, ht]

/-- Witness for C8 at a concrete pair of identical calls. -/
theorem deterministic_runs_witness :
    lasso_cda_cpp ![![(1:ℚ)]] ![3] 1 2 1
      = lasso_cda_cpp ![![(1:ℚ)]] ![3] 1 2 1 :=
  deterministic_runs ![![(1:ℚ)]] ![![(1:ℚ)]] ![3] ![3] 1 1 2 2 1 1
    rfl rfl rfl rfl rfl

/-- C9: a whole call leaves the design matrix and the response vector in
memory exactly as they were (the residual works on a copy of `y`, and `X`
is only read), while its `beta` component is the value `lasso_cda_cpp`
returns. -/
theorem inputs_unchanged {n p : ℕ} (m : Mem n p) (lambda : ℚ)
    (max_iter : ℤ) (tol : ℚ) :
    (lassoRunM lambda max_iter tol m).X = m.X ∧
    (lassoRunM lambda max_iter tol m).y = m.y ∧
    (lassoRunM lambda max_iter tol m).beta
      = lasso_cda_cpp m.X m.y lambda max_iter tol := by
  have h : lassoRunM lambda max_iter tol m
      = ⟨m.X, m.y,
          (lassoLoop m.X lambda tol max_iter.toNat (initState m.y)).beta,
          (lassoLoop m.X lambda tol max_iter.toNat (initState m.y)).r⟩ := by
    rw [lassoRunM]
    exact lassoLoopM_spec m.X m.y lambda tol max_iter.toNat (initState m.y)
  rw [h]
  exact ⟨rfl, rfl, rfl⟩

/-- C10: with a non-positive `max_iter` the outer loop body never runs,
so the call returns the initial all-zero coefficient vector, whatever
`X`, `y`, `lambda` and `tol` are. -/
theorem nonpositive_max_iter_returns_zero {n p : ℕ}
    (X : Fin n → Fin p → ℚ) (y : Fin n → ℚ) (lambda : ℚ) (max_iter : ℤ)
    (hm : max_iter ≤ 0) (tol : ℚ) :
    lasso_cda_cpp X y lambda max_iter tol = fun _ => 0 := by
  rw [lasso_cda_cpp, Int.toNat_of_nonpos hm]
  rfl

/-- Witness for C10 at `max_iter = -2`. -/
theorem nonpositive_max_iter_returns_zero_witness :
    lasso_cda_cpp ![![(1:ℚ)]] ![5] 1 (-2) 1 = fun _ => 0 :=
  nonpositive_max_iter_returns_zero ![![(1:ℚ)]] ![5] 1 (-2) (by decide) 1

end LassoCDA
